import Mathlib

/-!
Shallow embedding of the JOS kernel monitor fragment
(src/lab2-challenge/kern/monitor.c): the mapping inspector
(mon_showmappings and get_perm), the stack unwinder (mon_backtrace),
the tokenizer and command dispatcher (runcmd), and the console loop
exit test from monitor.  Machine integers are modelled as Nat with
explicit reduction modulo 2^32 where the C code computes in uint32_t.
External collaborators (pgdir_walk, debuginfo_eip, the raw memory) are
parameters of the model.
-/

namespace KernMonitor

/-- Size of the 32-bit machine word space: addresses wrap at this bound. -/
def U32 : Nat := 2 ^ 32

/-- Modelled from the spec: PGSIZE, the page size, from inc/mmu.h (not under src/). -/
def PGSIZE : Nat := 4096

/-- Modelled from the spec: the x86 page-table-entry attribute masks
PTE_P, PTE_W, PTE_U, PTE_PWT, PTE_PCD, PTE_A, PTE_D, PTE_PS, PTE_G and
PTE_AVAIL from inc/mmu.h (not under src/): present, writable, user,
write-through, cache-disable, accessed, dirty, page-size, global and
the implementation-reserved available bits, in the low bits of an entry. -/
def PTE_P : Nat := 0x001

/-- Writable bit of a page table entry. -/
def PTE_W : Nat := 0x002

/-- User bit of a page table entry. -/
def PTE_U : Nat := 0x004

/-- Write-through bit of a page table entry. -/
def PTE_PWT : Nat := 0x008

/-- Cache-disable bit of a page table entry. -/
def PTE_PCD : Nat := 0x010

/-- Accessed bit of a page table entry. -/
def PTE_A : Nat := 0x020

/-- Dirty bit of a page table entry. -/
def PTE_D : Nat := 0x040

/-- Page-size bit of a page table entry. -/
def PTE_PS : Nat := 0x080

/-- Global bit of a page table entry. -/
def PTE_G : Nat := 0x100

/-- Available (implementation-reserved) bits of a page table entry. -/
def PTE_AVAIL : Nat := 0xE00

/-- Modelled from the spec: PTE_ADDR from inc/mmu.h (not under src/):
the physical frame address held in an entry, high bits only, the low
attribute bits masked off (uint32 mask with the complement of 0xFFF). -/
def PTE_ADDR (pte : Nat) : Nat := pte &&& 0xFFFFF000

/-- Modelled from the spec: the ROUNDDOWN macro of inc/types.h (not
under src/), at page granularity: round an address down to the nearest
page boundary. -/
def ROUNDDOWN (a : Nat) : Nat := a - a % PGSIZE

/-- Modelled from the spec: the ROUNDUP macro of inc/types.h (not under
src/), at page granularity: add PGSIZE - 1 in uint32 arithmetic (the
spec notes that address values wrap at 32 bits during rounding) and
round down. -/
def ROUNDUP32 (a : Nat) : Nat := ROUNDDOWN ((a + (PGSIZE - 1)) % U32)

/-- Modelled from the spec: the error code E_INVAL from inc/error.h
(not under src/).  The handlers return its negation; the claims depend
only on that return value being negative. -/
def E_INVAL : Int := 3

/-- Whether a character is a hexadecimal digit. -/
def isHexDigit (c : Char) : Bool :=
  (('0' ≤ c) && (c ≤ '9')) || (('a' ≤ c) && (c ≤ 'f')) || (('A' ≤ c) && (c ≤ 'F'))

/-- Value of a hexadecimal digit. -/
def hexVal (c : Char) : Nat :=
  if ('0' ≤ c) && (c ≤ '9') then c.toNat - '0'.toNat
  else if ('a' ≤ c) && (c ≤ 'f') then c.toNat - 'a'.toNat + 10
  else c.toNat - 'A'.toNat + 10

/-- Accumulating base-16 digit scan: consumes the longest prefix of hex
digits and returns the accumulated value together with the unconsumed
remainder of the character list. -/
def strtolAux : List Char → Nat → Nat × List Char
  | [], v => (v, [])
  | c :: cs, v =>
    if isHexDigit c then strtolAux cs (v * 16 + hexVal c) else (v, c :: cs)

/-- Modelled from the spec: strtol(s, endptr, 16) from lib/string.c (not
under src/): parse the argument as a base-16 unsigned integer; the
second component models the string left at endptr, so the argument is
fully valid hex exactly when that remainder is empty.  The optional
leading whitespace, sign and 0x prefix of the C library routine are
omitted; the claims use plain hex-digit arguments. -/
def strtolHex (s : String) : Nat × String :=
  let p := strtolAux s.toList 0
  (p.1, String.mk p.2)

/-- One output line of the monitor, identified by its kind and the
values printed in it. -/
inductive Line
  | invalidStart
  | usage
  | startAfterEnd
  | roundup (rawEnd roundedEnd : Nat)
  | startend (startAddr endAddr : Nat)
  | notMapped (va : Nat)
  | mapped (va pa : Nat) (perm : String)
  deriving DecidableEq, Repr

/-- One observable event of a mon_showmappings run: a call into the
page-table lookup primitive pgdir_walk (with its virtual address and
create flag), or a printed line. -/
inductive Ev
  | lookup (va : Nat) (create : Bool)
  | line (l : Line)
  deriving DecidableEq, Repr

/-- The sequence of permission markers produced by get_perm: one marker
per recognized bit, the short token of the flag when the bit is set in
the entry and the placeholder "-" otherwise, in the fixed order of the
strcat calls in the C code. -/
def getPermList (pte : Nat) : List String :=
  [ if pte &&& PTE_AVAIL ≠ 0 then "(AVL)" else "-",
    if pte &&& PTE_G ≠ 0 then "(G)" else "-",
    if pte &&& PTE_PS ≠ 0 then "(PS)" else "-",
    if pte &&& PTE_D ≠ 0 then "(D)" else "-",
    if pte &&& PTE_A ≠ 0 then "(A)" else "-",
    if pte &&& PTE_PCD ≠ 0 then "(PCD)" else "-",
    if pte &&& PTE_PWT ≠ 0 then "(PWT)" else "-",
    if pte &&& PTE_U ≠ 0 then "(U)" else "-",
    if pte &&& PTE_W ≠ 0 then "(W)" else "-",
    if pte &&& PTE_P ≠ 0 then "(P)" else "-" ]

/-- get_perm of monitor.c: starting from the empty string, strcat one
marker per flag in the fixed order AVL, G, PS, D, A, PCD, PWT, U, W, P;
the result is the concatenation of the markers. -/
def get_perm (pte : Nat) : String := String.join (getPermList pte)

/-- The per-page body shared by both paths of mon_showmappings: call
pgdir_walk with create = 0, then print the not-mapped line when the
lookup returned no entry or the present bit of the entry is clear, and
otherwise print the mapped line with PTE_ADDR of the entry and the
get_perm permission summary. -/
def pageEvents (walk : Nat → Bool → Option Nat) (va : Nat) : List Ev :=
  Ev.lookup va false ::
    match walk va false with
    | none => [Ev.line (Line.notMapped va)]
    | some pte =>
      if pte &&& PTE_P = 0 then [Ev.line (Line.notMapped va)]
      else [Ev.line (Line.mapped va (PTE_ADDR pte) (get_perm pte))]

/-- The range walk of mon_showmappings: for (addr = start; addr <=
end_addr; addr += PGSIZE) run the per-page lookup and report, the
increment wrapping at 32 bits.  The loop of the C code has no other
exit, so the model carries fuel and returns none when the fuel is
exhausted before the guard fails. -/
def smLoop (walk : Nat → Bool → Option Nat) (endAddr : Nat) :
    Nat → Nat → Option (List Ev)
  | 0, _ => none
  | fuel + 1, addr =>
    if addr ≤ endAddr then
      match smLoop walk endAddr fuel ((addr + PGSIZE) % U32) with
      | none => none
      | some evs => some (pageEvents walk addr ++ evs)
    else some []

/-- Outcome of one mon_showmappings invocation: fault when the handler
passes a missing argv slot (a null pointer) to strtol, diverged when
the range walk exhausts any amount of fuel, and otherwise the event
trace together with the returned status. -/
inductive SmOut
  | fault
  | diverged
  | done (trace : List Ev) (ret : Int)
  deriving DecidableEq, Repr

/-- mon_showmappings of monitor.c.  The handler receives argc and argv
from runcmd with argv[argc] = 0; argv is modelled as the list of the
argc actual tokens (argv[0] is the command name), so reading the slot
one past the end yields the null pointer, modelled as fault since
strtol dereferences its argument.  Control flow follows the C source:
parse argv[1], reject on a nonempty endptr remainder, round the start
down; on argc == 2 do the single page lookup and report; on argc != 3
print the usage lines; otherwise parse argv[2], reject on a nonempty
remainder, reject when the rounded start exceeds the raw end, then
round the end up (printing the roundup and start-end lines) and run
the range walk. -/
def mon_showmappings (fuel : Nat) (walk : Nat → Bool → Option Nat)
    (argv : List String) : SmOut :=
  match argv[1]? with
  | none => SmOut.fault
  | some a1 =>
    let p1 := strtolHex a1
    if p1.2 ≠ "" then SmOut.done [Ev.line Line.invalidStart] (-E_INVAL)
    else
      let startAddr := ROUNDDOWN (p1.1 % U32)
      if argv.length = 2 then
        SmOut.done (pageEvents walk startAddr) 0
      else if argv.length ≠ 3 then
        SmOut.done [Ev.line Line.usage] (-E_INVAL)
      else
        match argv[2]? with
        | none => SmOut.fault
        | some a2 =>
          let p2 := strtolHex a2
          if p2.2 ≠ "" then SmOut.done [Ev.line Line.invalidStart] (-E_INVAL)
          else
            let endRaw := p2.1 % U32
            if startAddr > endRaw then
              SmOut.done [Ev.line Line.startAfterEnd] (-E_INVAL)
            else
              let endAddr := ROUNDUP32 endRaw
              match smLoop walk endAddr fuel startAddr with
              | none => SmOut.diverged
              | some evs =>
                SmOut.done
                  (Ev.line (Line.roundup endRaw endAddr) ::
                    Ev.line (Line.startend startAddr endAddr) :: evs) 0

/-- The trace of an invocation outcome; empty when it faulted or diverged. -/
def smTraceOf : SmOut → List Ev
  | SmOut.done t _ => t
  | _ => []

/-- Termination of one mon_showmappings invocation: some amount of fuel
lets the run finish. -/
def smTerm (walk : Nat → Bool → Option Nat) (argv : List String) : Prop :=
  ∃ fuel, mon_showmappings fuel walk argv ≠ SmOut.diverged

/-- The record returned by the external debug-info resolver
debuginfo_eip (struct Eipdebuginfo of kern/kdebug.h, an external
collaborator): source file, line, enclosing function name and length,
and the start address of the enclosing function. -/
structure Eipdebuginfo where
  eip_file : String
  eip_line : Nat
  eip_fn_name : String
  eip_fn_namelen : Nat
  eip_fn_addr : Nat
  deriving DecidableEq, Repr

/-- 32-bit unsigned subtraction: the displayed backtrace offset eip -
eip_fn_addr is computed in uint32 arithmetic. -/
def usub32 (a b : Nat) : Nat := (a % U32 + U32 - b % U32) % U32

/-- One frame report of mon_backtrace: the frame pointer, the return
address read at word offset 1, the five argument words read at word
offsets 2 through 6, the resolved debug info for the return address,
and the displayed symbol-line offset. -/
structure FrameRec where
  ebp : Nat
  eip : Nat
  args : List Nat
  info : Eipdebuginfo
  offset : Nat
  deriving DecidableEq, Repr

/-- The frame report assembled by one iteration of the mon_backtrace
loop at frame pointer e: eip is the word at e + 4, the argument words
are at e + 8 .. e + 24, and the symbol line shows eip minus the start
address of the enclosing function, in uint32 arithmetic. -/
def mkFrame (mem : Nat → Nat) (dbg : Nat → Eipdebuginfo) (e : Nat) : FrameRec :=
  { ebp := e
    eip := mem (e + 4)
    args := [mem (e + 8), mem (e + 12), mem (e + 16), mem (e + 20), mem (e + 24)]
    info := dbg (mem (e + 4))
    offset := usub32 (mem (e + 4)) (dbg (mem (e + 4))).eip_fn_addr }

/-- The loop of mon_backtrace: while ebp is nonzero, read the return
address and five argument words, resolve the debug info, emit the
frame report, and advance to the saved frame pointer at offset 0.  The
model logs every memory read (in the order of the C source: e + 4, the
five argument slots, then e itself) and carries fuel, returning none
when the chain is longer than the fuel. -/
def btLoop (mem : Nat → Nat) (dbg : Nat → Eipdebuginfo) :
    Nat → Nat → Option (List FrameRec × List Nat)
  | 0, e => if e = 0 then some ([], []) else none
  | fuel + 1, e =>
    if e = 0 then some ([], [])
    else
      match btLoop mem dbg fuel (mem e) with
      | none => none
      | some (frs, rds) =>
        some (mkFrame mem dbg e :: frs,
          [e + 4, e + 8, e + 12, e + 16, e + 20, e + 24, e] ++ rds)

/-- mon_backtrace of monitor.c: walk the frame-pointer chain starting
from the current frame pointer (read_ebp, a parameter of the model),
returning the frame reports and the log of memory reads; the C
function returns status 0 whenever its loop terminates. -/
def mon_backtrace (fuel : Nat) (mem : Nat → Nat) (dbg : Nat → Eipdebuginfo)
    (ebp0 : Nat) : Option (List FrameRec × List Nat) :=
  btLoop mem dbg fuel ebp0

/-- The frame-pointer chain: element i + 1 is the word in memory at
element i, starting from the initial frame pointer. -/
def ebpIter (mem : Nat → Nat) (e0 : Nat) : Nat → Nat
  | 0 => e0
  | i + 1 => mem (ebpIter mem e0 i)

/-- MAXARGS of monitor.c: the size of the argv array of runcmd. -/
def MAXARGS : Nat := 16

/-- The whitespace set of runcmd: the characters of the WHITESPACE
string tab, carriage return, newline, space. -/
def isWS (c : Char) : Bool :=
  (c = '\t') || (c = '\r') || (c = '\n') || (c = ' ')

mutual

/-- The tokenizing loop of runcmd, between tokens: gobble whitespace;
at the end of the buffer the parse is complete; when a token begins
with argc already at MAXARGS - 1 the line is rejected (none);
otherwise scan the token. -/
def tokSkip : List Char → Nat → Option (List (List Char))
  | [], _ => some []
  | c :: cs, argc =>
    if isWS c then tokSkip cs argc
    else if argc = MAXARGS - 1 then none
    else tokIn cs argc [c]

/-- The tokenizing loop of runcmd, inside a token: accumulate the
token characters (acc holds them reversed) until whitespace or the end
of the buffer ends the token. -/
def tokIn : List Char → Nat → List Char → Option (List (List Char))
  | [], _, acc => some [acc.reverse]
  | c :: cs, argc, acc =>
    if isWS c then
      match tokSkip cs (argc + 1) with
      | none => none
      | some toks => some (acc.reverse :: toks)
    else tokIn cs argc (c :: acc)

end

/-- The argument tokenizer of runcmd: split the command buffer into
whitespace-separated tokens, storing at most MAXARGS - 1 of them;
none models the too-many-arguments rejection of the whole line. -/
def tokenize (buf : List Char) : Option (List String) :=
  (tokSkip buf 0).map (List.map String.mk)

mutual

/-- Reference whitespace split, between tokens: the same scan as
tokSkip with no bound on the number of tokens. -/
def splitSkip : List Char → List (List Char)
  | [] => []
  | c :: cs => if isWS c then splitSkip cs else splitIn cs [c]

/-- Reference whitespace split, inside a token. -/
def splitIn : List Char → List Char → List (List Char)
  | [], acc => [acc.reverse]
  | c :: cs, acc =>
    if isWS c then acc.reverse :: splitSkip cs else splitIn cs (c :: acc)

end

/-- The whitespace-separated tokens of a command buffer, with no bound
on their number. -/
def tokensOf (buf : List Char) : List String :=
  (splitSkip buf).map String.mk

/-- The four handlers of the command table. -/
inductive Handler
  | help
  | kerninfo
  | backtrace
  | showmappings
  deriving DecidableEq, Repr

/-- The command table of monitor.c: full name, short name and handler
of the four commands, in table order (the descriptions play no role in
dispatch). -/
def commands : List (String × String × Handler) :=
  [ ("help", "h", Handler.help),
    ("kerninfo", "ki", Handler.kerninfo),
    ("backtrace", "bt", Handler.backtrace),
    ("showmappings", "sm", Handler.showmappings) ]

/-- The dispatch scan of runcmd: the first command whose full name or
short name equals argv[0] exactly. -/
def findCmd (s : String) : Option Handler :=
  (commands.find? (fun c => (s == c.1) || (s == c.2.1))).map (fun c => c.2.2)

/-- Outcome of one runcmd invocation: the too-many-arguments rejection
(with the maximum printed in the message), the silent empty line, the
unknown-command notice, a completed handler with its trace or frame
reports and its returned status, or the fault and divergence outcomes
propagated from a handler. -/
inductive RunOut
  | fault
  | diverged
  | tooMany (maxShown : Nat)
  | empty
  | unknown (cmd : String)
  | ranSimple (ret : Int)
  | ranBt (frames : List FrameRec) (reads : List Nat) (ret : Int)
  | ran (trace : List Ev) (ret : Int)
  deriving DecidableEq, Repr

/-- runcmd of monitor.c: tokenize the buffer (rejecting the line with
the too-many-arguments message, which prints MAXARGS, and returning
0); return 0 silently on an empty line; look argv[0] up in the command
table and run the matching handler on the full argv, returning its
status; print the unknown-command notice and return 0 on no match.
mon_help and mon_kerninfo always return 0. -/
def runcmd (fuel : Nat) (walk : Nat → Bool → Option Nat) (mem : Nat → Nat)
    (dbg : Nat → Eipdebuginfo) (ebp0 : Nat) (buf : List Char) : RunOut :=
  match tokenize buf with
  | none => RunOut.tooMany MAXARGS
  | some [] => RunOut.empty
  | some (cmd :: rest) =>
    match findCmd cmd with
    | none => RunOut.unknown cmd
    | some Handler.help => RunOut.ranSimple 0
    | some Handler.kerninfo => RunOut.ranSimple 0
    | some Handler.backtrace =>
      match mon_backtrace fuel mem dbg ebp0 with
      | none => RunOut.diverged
      | some (frs, rds) => RunOut.ranBt frs rds 0
    | some Handler.showmappings =>
      match mon_showmappings fuel walk (cmd :: rest) with
      | SmOut.fault => RunOut.fault
      | SmOut.diverged => RunOut.diverged
      | SmOut.done t r => RunOut.ran t r

/-- The status returned by a completed runcmd invocation; none when the
handler faulted or diverged. -/
def retOf : RunOut → Option Int
  | RunOut.fault => none
  | RunOut.diverged => none
  | RunOut.tooMany _ => some 0
  | RunOut.empty => some 0
  | RunOut.unknown _ => some 0
  | RunOut.ranSimple r => some r
  | RunOut.ranBt _ _ r => some r
  | RunOut.ran _ r => some r

/-- The exit test of the console loop in monitor: the loop breaks
exactly when runcmd returned a negative status. -/
def monitorStops (r : Int) : Bool := r < 0

/-- The virtual addresses passed to the lookup primitive during a run,
in order. -/
def lookupsOf (t : List Ev) : List Nat :=
  t.filterMap (fun e => match e with | Ev.lookup a _ => some a | _ => none)

/-- Whether a line is a per-page report line (mapped or not mapped). -/
def isReport : Line → Bool
  | Line.notMapped _ => true
  | Line.mapped _ _ _ => true
  | _ => false

/-- The per-page report lines of a trace, in order. -/
def reportsOf (t : List Ev) : List Line :=
  t.filterMap (fun e =>
    match e with
    | Ev.line l => if isReport l then some l else none
    | _ => none)

/-- The page walk described over its page count: the per-page events of
the N page-aligned addresses from the start upward, in ascending order. -/
def walkPages (walk : Nat → Bool → Option Nat) : Nat → Nat → List Ev
  | _, 0 => []
  | startAddr, n + 1 =>
    pageEvents walk startAddr ++ walkPages walk (startAddr + PGSIZE) n

/-- The N page-aligned addresses from a start address upward, in
ascending order. -/
def ascAddrs : Nat → Nat → List Nat
  | _, 0 => []
  | startAddr, n + 1 => startAddr :: ascAddrs (startAddr + PGSIZE) n

/-- Absence of a usable mapping for a page: the lookup primitive
returns no entry, or the present bit of the entry is clear. -/
def walkAbsent (walk : Nat → Bool → Option Nat) (va : Nat) : Prop :=
  walk va false = none ∨ ∃ pte, walk va false = some pte ∧ pte &&& PTE_P = 0

/-- Trace invariant of the mapping inspector: every lookup passes
create = false; a not-mapped report implies the lookup found no usable
entry; a mapped report carries the masked physical address and the
permission summary of a present entry; and every page looked up is
reported, as not mapped exactly when no usable entry exists. -/
def GoodTrace (walk : Nat → Bool → Option Nat) (t : List Ev) : Prop :=
  (∀ a c, Ev.lookup a c ∈ t → c = false) ∧
  (∀ a, Ev.line (Line.notMapped a) ∈ t → walkAbsent walk a) ∧
  (∀ a pa s, Ev.line (Line.mapped a pa s) ∈ t →
    ∃ pte, walk a false = some pte ∧ pte &&& PTE_P ≠ 0 ∧
      pa = PTE_ADDR pte ∧ s = get_perm pte) ∧
  (∀ a c, Ev.lookup a c ∈ t → walkAbsent walk a →
    Ev.line (Line.notMapped a) ∈ t) ∧
  (∀ a c, Ev.lookup a c ∈ t → ¬ walkAbsent walk a →
    ∃ pte, walk a false = some pte ∧
      Ev.line (Line.mapped a (PTE_ADDR pte) (get_perm pte)) ∈ t)

/-- The frame reports of a K-step chain starting at a frame pointer. -/
def btFrames (mem : Nat → Nat) (dbg : Nat → Eipdebuginfo) : Nat → Nat → List FrameRec
  | _, 0 => []
  | e0, k + 1 => mkFrame mem dbg e0 :: btFrames mem dbg (mem e0) k

/-- The memory reads of a K-step chain starting at a frame pointer. -/
def btReads (mem : Nat → Nat) : Nat → Nat → List Nat
  | _, 0 => []
  | e0, k + 1 =>
    [e0 + 4, e0 + 8, e0 + 12, e0 + 16, e0 + 20, e0 + 24, e0] ++ btReads mem (mem e0) k

/-- A page table with no mappings at all, for concrete runs. -/
def walkNone : Nat → Bool → Option Nat := fun _ _ => none

/-- A page table mapping only the page at 0x1000 to frame 0x2000 with
the present and writable bits set, for concrete runs. -/
def walkOne : Nat → Bool → Option Nat :=
  fun a _ => if a = 4096 then some 0x2003 else none

/-- All-zero memory, for concrete runs. -/
def memZero : Nat → Nat := fun _ => 0

/-- A trivial debug-info resolver, for concrete runs. -/
def dbgZero : Nat → Eipdebuginfo := fun _ => ⟨"", 0, "", 0, 0⟩

/-- A concrete memory holding a two-frame chain: frame pointer 100
saves frame pointer 200 at offset 0, and frame pointer 200 saves the
zero terminator; return addresses and argument words are a + 1 at
address a elsewhere. -/
def memChain : Nat → Nat :=
  fun a => if a = 100 then 200 else if a = 200 then 0 else a + 1

/-- A concrete debug-info resolver placing every address in one
function starting at address 50, for concrete runs. -/
def dbgChain : Nat → Eipdebuginfo := fun _ => ⟨"kern/init.c", 10, "test", 4, 50⟩

/-- The length of the frame-report list of a backtrace outcome. -/
def btLen (o : Option (List FrameRec × List Nat)) : Option Nat :=
  o.map (fun p => p.1.length)

/-! Helper lemmas. -/

lemma rounddown_mul (a : Nat) : ROUNDDOWN a = PGSIZE * (a / PGSIZE) := by
  have h := Nat.div_add_mod a PGSIZE
  simp only [ROUNDDOWN, PGSIZE] at *
  omega

lemma sm_parse1_invalid (fuel : Nat) (walk : Nat → Bool → Option Nat)
    (c s : String) (p : Nat × String) (h : strtolHex s = p) (hr : p.2 ≠ "") :
    ∀ rest : List String,
      mon_showmappings fuel walk (c :: s :: rest)
        = SmOut.done [Ev.line Line.invalidStart] (-E_INVAL) := by
  intro rest
  simp [mon_showmappings, h, hr]

lemma sm_single (fuel : Nat) (walk : Nat → Bool → Option Nat)
    (c s : String) (v : Nat) (h : strtolHex s = (v, "")) :
    mon_showmappings fuel walk [c, s]
      = SmOut.done (pageEvents walk (ROUNDDOWN (v % U32))) 0 := by
  simp [mon_showmappings, h]

/-! Theorems for the claims. -/

/-- C2: the claim says an invocation with zero address arguments (argc
equal to 1) reports a usage error and returns a non-fatal error status
without any page-table lookup and without reading any address
argument.  The code instead reads the argv slot one past the last
token, which runcmd set to the null pointer, and passes it to strtol
before any argument-count check: the one-argument invocation
dereferences a null pointer.  This theorem evaluates the model at the
failing input: the outcome is the fault, not the usage report. -/
theorem showmappings_one_arg_null_deref :
    ∀ (fuel : Nat) (walk : Nat → Bool → Option Nat),
      mon_showmappings fuel walk ["showmappings"] = SmOut.fault := by
  intro fuel walk
  rfl

/-- C7: the permission summary is a pure function of the entry bits,
rendered as exactly ten markers in the fixed order available, global,
page-size, dirty, accessed, cache-disable, write-through, user,
writable, present, each marker the flag token when the bit is set and
the placeholder otherwise; for the entry with only the present and
writable bits set, exactly those two flags are marked and the other
eight show the placeholder. -/
theorem perm_summary_fixed_order :
    (∀ pte : Nat,
      getPermList pte =
        [(PTE_AVAIL, "(AVL)"), (PTE_G, "(G)"), (PTE_PS, "(PS)"), (PTE_D, "(D)"),
          (PTE_A, "(A)"), (PTE_PCD, "(PCD)"), (PTE_PWT, "(PWT)"), (PTE_U, "(U)"),
          (PTE_W, "(W)"), (PTE_P, "(P)")].map
            (fun mt => if pte &&& mt.1 ≠ 0 then mt.2 else "-")) ∧
    (∀ pte : Nat, (getPermList pte).length = 10) ∧
    (∀ pte : Nat, get_perm pte = String.join (getPermList pte)) ∧
    getPermList (PTE_P ||| PTE_W)
      = ["-", "-", "-", "-", "-", "-", "-", "-", "(W)", "(P)"] ∧
    get_perm (PTE_P ||| PTE_W) = "--------(W)(P)" := by
  refine ⟨fun pte => rfl, fun pte => rfl, fun pte => rfl, by decide, by decide⟩

/-- C1, counterexample: the claim says no malformed-input condition
terminates the console loop because the inspection handlers never
return a negative status.  On the input line with a non-hex address
argument, mon_showmappings returns minus E_INVAL, which is negative,
and the exit test of the console loop in monitor breaks on it: the
malformed invocation terminates the loop. -/
theorem malformed_showmappings_ends_monitor_cex :
    runcmd 1 walkNone memZero dbgZero 0 ("showmappings xyz".toList)
        = RunOut.ran [Ev.line Line.invalidStart] (-E_INVAL) ∧
    retOf (RunOut.ran [Ev.line Line.invalidStart] (-E_INVAL)) = some (-E_INVAL) ∧
    monitorStops (-E_INVAL) = true := by
  refine ⟨by decide, by decide, by decide⟩

/-- C3, counterexample: the claim says a two-address call is rejected
if and only if the rounded-down start exceeds the rounded-up end, the
comparison being performed after rounding the end up.  For start
0x1000 and end 0x1, the rounded-down start 0x1000 does not exceed the
rounded-up end 0x1000, so the claim predicts acceptance; the code
compares against the raw end before rounding and rejects the call. -/
theorem start_after_end_unrounded_cex :
    mon_showmappings 1 walkNone ["showmappings", "1000", "1"]
        = SmOut.done [Ev.line Line.startAfterEnd] (-E_INVAL) ∧
    ROUNDDOWN 0x1000 ≤ ROUNDUP32 0x1 := by
  refine ⟨by decide, by decide⟩

/-- C6: for every valid single hex address, showmappings rounds the
address down to the page boundary before the lookup, so two addresses
in the same page produce identical runs reporting the same virtual
address; and a first argument with a trailing non-hex character yields
the invalid-start-address report with no table lookup and the error
status. -/
theorem showmappings_rounddown_and_invalid_hex :
    ∀ (fuel : Nat) (walk : Nat → Bool → Option Nat) (c s1 s2 s : String)
      (v1 v2 v : Nat) (r : String),
      (strtolHex s1 = (v1, "") → strtolHex s2 = (v2, "") →
        (v1 % U32) / PGSIZE = (v2 % U32) / PGSIZE →
        mon_showmappings fuel walk [c, s1]
            = SmOut.done (pageEvents walk (ROUNDDOWN (v1 % U32))) 0 ∧
        mon_showmappings fuel walk [c, s2] = mon_showmappings fuel walk [c, s1]) ∧
      (strtolHex s = (v, r) → r ≠ "" →
        mon_showmappings fuel walk [c, s]
          = SmOut.done [Ev.line Line.invalidStart] (-E_INVAL)) := by
  intro fuel walk c s1 s2 s v1 v2 v r
  constructor
  · intro h1 h2 hpg
    have e1 := sm_single fuel walk c s1 v1 h1
    have e2 := sm_single fuel walk c s2 v2 h2
    have hrd : ROUNDDOWN (v2 % U32) = ROUNDDOWN (v1 % U32) := by
      rw [rounddown_mul, rounddown_mul, hpg]
    refine ⟨e1, ?_⟩
    rw [e1, e2, hrd]
  · intro h hr
    exact sm_parse1_invalid fuel walk c s (v, r) h hr []

/-- C6, witness: the addresses 0x1001 (one byte into the page) and
0x1fff (one byte before the next page) produce identical runs on the
page table mapping the page 0x1000, with the lookup at the rounded
address 0x1000; the argument 10g0 is rejected with the invalid-start
report. -/
theorem showmappings_rounddown_and_invalid_hex_witness :
    mon_showmappings 1 walkOne ["sm", "1fff"] = mon_showmappings 1 walkOne ["sm", "1001"] ∧
    mon_showmappings 1 walkOne ["sm", "1001"]
        = SmOut.done (pageEvents walkOne (ROUNDDOWN (0x1001 % U32))) 0 ∧
    mon_showmappings 1 walkOne ["sm", "10g0"]
        = SmOut.done [Ev.line Line.invalidStart] (-E_INVAL) := by
  have h := showmappings_rounddown_and_invalid_hex 1 walkOne "sm" "1001" "1fff" "10g0"
    0x1001 0x1fff 16 "g0"
  exact ⟨(h.1 rfl rfl (by decide)).2, (h.1 rfl rfl (by decide)).1, h.2 rfl (by decide)⟩

/-- C3, amended: for a two-address invocation with both arguments
valid hex, the call is rejected with the start-after-end report, the
error status and no lookup events if and only if the start address
rounded down to a page boundary exceeds the raw, unrounded end
address: the comparison is performed before the end address is rounded
up. -/
theorem start_after_end_check_amended :
    ∀ (fuel : Nat) (walk : Nat → Bool → Option Nat) (c s1 s2 : String) (v1 v2 : Nat),
      strtolHex s1 = (v1, "") → strtolHex s2 = (v2, "") →
      (mon_showmappings fuel walk [c, s1, s2]
          = SmOut.done [Ev.line Line.startAfterEnd] (-E_INVAL)
        ↔ v2 % U32 < ROUNDDOWN (v1 % U32)) := by
  intro fuel walk c s1 s2 v1 v2 h1 h2
  by_cases hcmp : ROUNDDOWN (v1 % U32) > v2 % U32
  · simp only [gt_iff_lt] at hcmp
    simp [mon_showmappings, h1, h2, hcmp]
  · simp only [gt_iff_lt, not_lt] at hcmp
    rcases hsm : smLoop walk (ROUNDUP32 (v2 % U32)) fuel (ROUNDDOWN (v1 % U32))
      with _ | evs
    · simp [mon_showmappings, h1, h2, hsm, Nat.not_lt.mpr hcmp]
    · simp [mon_showmappings, h1, h2, hsm, Nat.not_lt.mpr hcmp]

/-- C3, amended claim witness: for start 0x1000 and raw end 0x1 the
rounded-down start exceeds the raw end, so the call is rejected with
the start-after-end report. -/
theorem start_after_end_check_amended_witness :
    mon_showmappings 1 walkNone ["showmappings", "1000", "1"]
        = SmOut.done [Ev.line Line.startAfterEnd] (-E_INVAL) :=
  (start_after_end_check_amended 1 walkNone "showmappings" "1000" "1" 0x1000 0x1
    rfl rfl).mpr (by decide)

/-- C1, amended: the console loop breaks exactly on a negative handler
status, it breaks on minus E_INVAL, and the backtrace handler always
returns status 0; but mon_showmappings returns the negative status
minus E_INVAL on every malformed invocation that returns at all: a
non-hex first address argument, four or more tokens with a valid first
argument, a non-hex second argument, or a rounded-down start above the
raw end address.  Each of these terminates the console loop.  The
remaining malformed case, the invocation with zero address arguments,
returns no status at all: it passes the null argv slot to strtol. -/
theorem monitor_exit_contract_amended :
    (∀ r : Int, monitorStops r = true ↔ r < 0) ∧
    monitorStops (-E_INVAL) = true ∧
    (∀ (fuel : Nat) (walk : Nat → Bool → Option Nat) (mem : Nat → Nat)
        (dbg : Nat → Eipdebuginfo) (ebp0 : Nat) (buf : List Char)
        (frs : List FrameRec) (rds : List Nat) (r : Int),
      runcmd fuel walk mem dbg ebp0 buf = RunOut.ranBt frs rds r → r = 0) ∧
    (∀ (fuel : Nat) (walk : Nat → Bool → Option Nat) (c s : String)
        (rest : List String) (p : Nat × String),
      strtolHex s = p → p.2 ≠ "" →
      mon_showmappings fuel walk (c :: s :: rest)
        = SmOut.done [Ev.line Line.invalidStart] (-E_INVAL)) ∧
    (∀ (fuel : Nat) (walk : Nat → Bool → Option Nat) (argv : List String)
        (a1 : String) (v : Nat),
      argv[1]? = some a1 → strtolHex a1 = (v, "") →
      argv.length ≠ 2 → argv.length ≠ 3 →
      mon_showmappings fuel walk argv
        = SmOut.done [Ev.line Line.usage] (-E_INVAL)) ∧
    (∀ (fuel : Nat) (walk : Nat → Bool → Option Nat) (c s1 s2 : String)
        (v1 v2 : Nat) (r : String),
      strtolHex s1 = (v1, "") → strtolHex s2 = (v2, r) → r ≠ "" →
      mon_showmappings fuel walk [c, s1, s2]
        = SmOut.done [Ev.line Line.invalidStart] (-E_INVAL)) ∧
    (∀ (fuel : Nat) (walk : Nat → Bool → Option Nat) (c s1 s2 : String)
        (v1 v2 : Nat),
      strtolHex s1 = (v1, "") → strtolHex s2 = (v2, "") →
      v2 % U32 < ROUNDDOWN (v1 % U32) →
      mon_showmappings fuel walk [c, s1, s2]
        = SmOut.done [Ev.line Line.startAfterEnd] (-E_INVAL)) ∧
    (∀ (fuel : Nat) (walk : Nat → Bool → Option Nat) (c : String),
      mon_showmappings fuel walk [c] = SmOut.fault) := by
  refine ⟨?_, by decide, ?_, ?_, ?_, ?_, ?_, ?_⟩
  · intro r
    simp [monitorStops]
  · intro fuel walk mem dbg ebp0 buf frs rds r h
    unfold runcmd at h
    split at h <;>
      first
        | simp_all
        | (split at h <;>
            first
              | simp_all
              | (split at h <;> simp_all))
  · intro fuel walk c s rest p h hr
    exact sm_parse1_invalid fuel walk c s p h hr rest
  · intro fuel walk argv a1 v h1 hp hl2 hl3
    simp [mon_showmappings, h1, hp, hl2, hl3]
  · intro fuel walk c s1 s2 v1 v2 r h1 h2 hr
    simp [mon_showmappings, h1, h2, hr]
  · intro fuel walk c s1 s2 v1 v2 h1 h2 hcmp
    simp [mon_showmappings, h1, h2, hcmp]
  · intro fuel walk c
    rfl

/-- C1, amended claim witness: the two-token line with the non-hex
argument xyz returns minus E_INVAL with the invalid-start report, the
four-token line returns minus E_INVAL with the usage report, the
start-after-end line 1000 1 returns minus E_INVAL, and the exit test
of the console loop fires on minus E_INVAL. -/
theorem monitor_exit_contract_amended_witness :
    mon_showmappings 1 walkNone ["showmappings", "xyz"]
        = SmOut.done [Ev.line Line.invalidStart] (-E_INVAL) ∧
    mon_showmappings 1 walkNone ["showmappings", "0", "0", "0"]
        = SmOut.done [Ev.line Line.usage] (-E_INVAL) ∧
    mon_showmappings 1 walkNone ["showmappings", "1000", "1g"]
        = SmOut.done [Ev.line Line.invalidStart] (-E_INVAL) ∧
    mon_showmappings 1 walkNone ["showmappings", "1000", "1"]
        = SmOut.done [Ev.line Line.startAfterEnd] (-E_INVAL) ∧
    monitorStops (-E_INVAL) = true :=
  ⟨monitor_exit_contract_amended.2.2.2.1 1 walkNone "showmappings" "xyz" []
      (0, "xyz") rfl (by decide),
    monitor_exit_contract_amended.2.2.2.2.1 1 walkNone
      ["showmappings", "0", "0", "0"] "0" 0 rfl rfl (by decide) (by decide),
    monitor_exit_contract_amended.2.2.2.2.2.1 1 walkNone "showmappings" "1000"
      "1g" 0x1000 1 "g" rfl rfl (by decide),
    monitor_exit_contract_amended.2.2.2.2.2.2.1 1 walkNone "showmappings" "1000"
      "1" 0x1000 0x1 rfl rfl (by decide),
    monitor_exit_contract_amended.2.1⟩

lemma U32_eq : U32 = 4294967296 := by norm_num [U32]

lemma U32_pos : 0 < U32 := by rw [U32_eq]; omega

lemma rounddown_le (a : Nat) : ROUNDDOWN a ≤ a := by
  simp only [ROUNDDOWN]; omega

lemma rounddown_aligned (a : Nat) : ROUNDDOWN a % PGSIZE = 0 := by
  simp only [ROUNDDOWN, PGSIZE]; omega

lemma roundup32_lt (a : Nat) : ROUNDUP32 a < U32 :=
  Nat.lt_of_le_of_lt (rounddown_le _) (Nat.mod_lt _ U32_pos)

lemma roundup32_aligned (a : Nat) : ROUNDUP32 a % PGSIZE = 0 :=
  rounddown_aligned _

lemma smLoop_top_none (walk : Nat → Bool → Option Nat) :
    ∀ fuel addr, addr % PGSIZE = 0 → addr < U32 →
      smLoop walk 0xFFFFF000 fuel addr = none := by
  intro fuel
  induction fuel with
  | zero => intro addr _ _; rfl
  | succ n ih =>
    intro addr hal hlt
    have hle : addr ≤ 0xFFFFF000 := by
      rw [U32_eq] at hlt; simp only [PGSIZE] at hal; omega
    rw [smLoop, if_pos hle,
      ih ((addr + PGSIZE) % U32)
        (by rw [U32_eq]; simp only [PGSIZE] at *; omega)
        (Nat.mod_lt _ U32_pos)]

lemma sm_range (fuel : Nat) (walk : Nat → Bool → Option Nat)
    (c s1 s2 : String) (v1 v2 : Nat)
    (h1 : strtolHex s1 = (v1, "")) (h2 : strtolHex s2 = (v2, ""))
    (hcmp : ROUNDDOWN (v1 % U32) ≤ v2 % U32) :
    mon_showmappings fuel walk [c, s1, s2] =
      match smLoop walk (ROUNDUP32 (v2 % U32)) fuel (ROUNDDOWN (v1 % U32)) with
      | none => SmOut.diverged
      | some evs =>
        SmOut.done (Ev.line (Line.roundup (v2 % U32) (ROUNDUP32 (v2 % U32))) ::
          Ev.line (Line.startend (ROUNDDOWN (v1 % U32))
            (ROUNDUP32 (v2 % U32))) :: evs) 0 := by
  simp [mon_showmappings, h1, h2, Nat.not_lt.mpr hcmp]

lemma smLoop_exit (walk : Nat → Bool → Option Nat) (E : Nat) :
    ∀ fuel addr, E < addr → 1 ≤ fuel → smLoop walk E fuel addr = some [] := by
  intro fuel addr hlt hf
  cases fuel with
  | zero => omega
  | succ n => rw [smLoop, if_neg (Nat.not_le.mpr hlt)]

lemma smLoop_count (walk : Nat → Bool → Option Nat) (E : Nat)
    (hElt : E < U32) (hEne : E ≠ 0xFFFFF000) (hEal : E % PGSIZE = 0) :
    ∀ k fuel s, E = s + PGSIZE * k → k + 1 < fuel →
      smLoop walk E fuel s = some (walkPages walk s (k + 1)) := by
  intro k
  induction k with
  | zero =>
    intro fuel s hE hf
    have hEs : E = s := by simpa using hE
    subst hEs
    cases fuel with
    | zero => exact absurd hf (Nat.not_lt_zero _)
    | succ n =>
      rw [smLoop, if_pos (Nat.le_refl E)]
      have hE2 : E + PGSIZE < U32 := by
        rw [U32_eq] at hElt ⊢; simp only [PGSIZE] at hEal ⊢; omega
      rw [Nat.mod_eq_of_lt hE2,
        smLoop_exit walk E n (E + PGSIZE)
          (by simp only [PGSIZE]; omega) (by omega)]
      rfl
  | succ m ih =>
    intro fuel s hE hf
    cases fuel with
    | zero => exact absurd hf (Nat.not_lt_zero _)
    | succ n =>
      have hsle : s ≤ E := by simp only [PGSIZE] at hE; omega
      rw [smLoop, if_pos hsle]
      have hlt2 : s + PGSIZE ≤ E := by simp only [PGSIZE] at hE ⊢; omega
      have hnext : (s + PGSIZE) % U32 = s + PGSIZE :=
        Nat.mod_eq_of_lt (Nat.lt_of_le_of_lt hlt2 hElt)
      have hE' : E = (s + PGSIZE) + PGSIZE * m := by
        simp only [PGSIZE] at hE ⊢; omega
      rw [hnext, ih n (s + PGSIZE) hE' (by omega)]
      rfl

lemma pages_decompose (S E : Nat) (hS : S % PGSIZE = 0) (hE : E % PGSIZE = 0)
    (hle : S ≤ E) : E = S + PGSIZE * ((E - S) / PGSIZE) := by
  simp only [PGSIZE] at *; omega

/-- C5, counterexample: for the accepted range from 0 to 0xfffff000
the rounded-up end address is the top page boundary 0xFFFFF000; every
page-aligned 32-bit address satisfies the loop guard and the per-page
increment wraps, so no amount of fuel completes the walk: the loop of
showmappings does not terminate on this input, contradicting the
claim that every accepted range runs to completion. -/
theorem range_walk_top_divergence_cex :
    ¬ smTerm walkNone ["showmappings", "0", "fffff000"] := by
  rintro ⟨fuel, h⟩
  apply h
  rw [sm_range fuel walkNone "showmappings" "0" "fffff000" 0x0 0xFFFFF000 rfl rfl
    (by decide)]
  rw [(by decide : ROUNDUP32 (0xFFFFF000 % U32) = 0xFFFFF000),
    (by decide : ROUNDDOWN (0x0 % U32) = 0)]
  rw [smLoop_top_none walkNone fuel 0 (by decide) (by decide)]

/-- C5, amended: for every accepted two-address range (valid hex
arguments, rounded-down start not above the raw end) whose rounded-up
end address is not the top page boundary 0xFFFFF000, the page-walk
loop of showmappings terminates: when the rounded-up end lies below
the start after a 32-bit wrap during rounding, the loop exits at once,
and otherwise it completes the finite walk.  When the rounded-up end
equals 0xFFFFF000 the per-page increment wraps and the loop never
terminates. -/
theorem range_walk_termination_amended :
    ∀ (walk : Nat → Bool → Option Nat) (c s1 s2 : String) (v1 v2 : Nat),
      strtolHex s1 = (v1, "") → strtolHex s2 = (v2, "") →
      ROUNDDOWN (v1 % U32) ≤ v2 % U32 →
      ROUNDUP32 (v2 % U32) ≠ 0xFFFFF000 →
      smTerm walk [c, s1, s2] := by
  intro walk c s1 s2 v1 v2 h1 h2 hacc hne
  rcases le_or_lt (ROUNDDOWN (v1 % U32)) (ROUNDUP32 (v2 % U32)) with hle | hlt
  · refine ⟨(ROUNDUP32 (v2 % U32) - ROUNDDOWN (v1 % U32)) / PGSIZE + 2, ?_⟩
    rw [sm_range _ walk c s1 s2 v1 v2 h1 h2 hacc,
      smLoop_count walk (ROUNDUP32 (v2 % U32)) (roundup32_lt _) hne
        (roundup32_aligned _) _ _ (ROUNDDOWN (v1 % U32))
        (pages_decompose _ _ (rounddown_aligned _) (roundup32_aligned _) hle)
        (by omega)]
    simp
  · refine ⟨1, ?_⟩
    rw [sm_range 1 walk c s1 s2 v1 v2 h1 h2 hacc,
      smLoop_exit walk (ROUNDUP32 (v2 % U32)) 1 (ROUNDDOWN (v1 % U32)) hlt
        (by omega)]
    simp

/-- C5, amended claim witness: the accepted range from 0 to 0x2000 has
rounded-up end 0x2000, below the top boundary, and the walk
terminates. -/
theorem range_walk_termination_amended_witness :
    smTerm walkNone ["showmappings", "0", "2000"] :=
  range_walk_termination_amended walkNone "showmappings" "0" "2000" 0x0 0x2000
    rfl rfl (by decide) (by decide)

lemma lookupsOf_append (t1 t2 : List Ev) :
    lookupsOf (t1 ++ t2) = lookupsOf t1 ++ lookupsOf t2 := by
  simp [lookupsOf]

lemma lookupsOf_pageEvents (walk : Nat → Bool → Option Nat) (a : Nat) :
    lookupsOf (pageEvents walk a) = [a] := by
  unfold pageEvents
  rcases walk a false with _ | pte
  · rfl
  · by_cases h : pte &&& PTE_P = 0 <;> simp [h, lookupsOf]

lemma lookupsOf_walkPages (walk : Nat → Bool → Option Nat) :
    ∀ n s, lookupsOf (walkPages walk s n) = ascAddrs s n := by
  intro n
  induction n with
  | zero => intro s; rfl
  | succ k ih =>
    intro s
    rw [walkPages, ascAddrs, lookupsOf_append, lookupsOf_pageEvents, ih]
    rfl

lemma ascAddrs_le : ∀ n s x, x ∈ ascAddrs s n → s ≤ x := by
  intro n
  induction n with
  | zero => intro s x h; simp [ascAddrs] at h
  | succ k ih =>
    intro s x h
    rw [ascAddrs] at h
    rcases List.mem_cons.mp h with he | ht
    · omega
    · have := ih (s + PGSIZE) x ht
      omega

lemma ascAddrs_pairwise : ∀ n s, (ascAddrs s n).Pairwise (· < ·) := by
  intro n
  induction n with
  | zero => intro s; simp [ascAddrs]
  | succ k ih =>
    intro s
    rw [ascAddrs]
    refine List.Pairwise.cons ?_ (ih (s + PGSIZE))
    intro x hx
    have h1 := ascAddrs_le k (s + PGSIZE) x hx
    have h2 : 0 < PGSIZE := by simp only [PGSIZE]; omega
    omega

lemma ascAddrs_get : ∀ n s i, i < n → (ascAddrs s n)[i]? = some (s + PGSIZE * i) := by
  intro n
  induction n with
  | zero => intro s i h; omega
  | succ k ih =>
    intro s i h
    cases i with
    | zero => simp [ascAddrs]
    | succ j =>
      rw [ascAddrs]
      simp only [List.getElem?_cons_succ]
      rw [ih (s + PGSIZE) j (by omega)]
      have : s + PGSIZE + PGSIZE * j = s + PGSIZE * (j + 1) := by ring
      rw [this]

lemma reportsOf_append (t1 t2 : List Ev) :
    reportsOf (t1 ++ t2) = reportsOf t1 ++ reportsOf t2 := by
  simp [reportsOf]

lemma reportsOf_pageEvents (walk : Nat → Bool → Option Nat) (a : Nat) :
    (reportsOf (pageEvents walk a)).length = 1 := by
  unfold pageEvents
  rcases walk a false with _ | pte
  · rfl
  · by_cases h : pte &&& PTE_P = 0 <;> simp [h, reportsOf, isReport]

lemma reportsOf_walkPages (walk : Nat → Bool → Option Nat) :
    ∀ n s, (reportsOf (walkPages walk s n)).length = n := by
  intro n
  induction n with
  | zero => intro s; rfl
  | succ k ih =>
    intro s
    rw [walkPages, reportsOf_append, List.length_append, reportsOf_pageEvents,
      ih (s + PGSIZE)]
    omega

/-- C4, counterexample: the two-address range from 0x1000 to
0xfffff000 is accepted, its page-rounded bounds 0x1000 and 0xFFFFF000
are ascending and span a definite number of pages, yet the walk never
completes for any amount of fuel: the inspector does not perform
exactly one lookup per page of the range and stop. -/
theorem range_walk_lookup_count_cex :
    (¬ smTerm walkNone ["showmappings", "1000", "fffff000"]) ∧
    ROUNDDOWN (0x1000 % U32) = 0x1000 ∧
    ROUNDUP32 (0xFFFFF000 % U32) = 0xFFFFF000 := by
  refine ⟨?_, by decide, by decide⟩
  rintro ⟨fuel, h⟩
  apply h
  rw [sm_range fuel walkNone "showmappings" "1000" "fffff000" 0x1000 0xFFFFF000
    rfl rfl (by decide)]
  rw [(by decide : ROUNDUP32 (0xFFFFF000 % U32) = 0xFFFFF000),
    (by decide : ROUNDDOWN (0x1000 % U32) = 0x1000)]
  rw [smLoop_top_none walkNone fuel 0x1000 (by decide) (by decide)]

set_option maxRecDepth 100000 in
/-- C4, amended: for every accepted two-address range whose rounded-up
end address E is at least the rounded-down start S and is not the top
page boundary 0xFFFFF000 (so no 32-bit wrap occurs during the walk),
with N the number of pages spanned by the rounded bounds, the walk
consists of the N per-page blocks in ascending page order: exactly N
lookups, the i-th at the page-aligned address S plus i pages, in
strictly ascending order, and exactly one report line per page,
unmapped pages included. -/
theorem range_walk_per_page_amended :
    ∀ (fuel : Nat) (walk : Nat → Bool → Option Nat) (c s1 s2 : String)
      (v1 v2 : Nat) (S E N : Nat),
      strtolHex s1 = (v1, "") → strtolHex s2 = (v2, "") →
      S = ROUNDDOWN (v1 % U32) → E = ROUNDUP32 (v2 % U32) →
      S ≤ v2 % U32 → S ≤ E → E ≠ 0xFFFFF000 →
      N = (E - S) / PGSIZE + 1 → N < fuel →
      mon_showmappings fuel walk [c, s1, s2]
          = SmOut.done
              (Ev.line (Line.roundup (v2 % U32) E) ::
                Ev.line (Line.startend S E) :: walkPages walk S N) 0 ∧
      lookupsOf (walkPages walk S N) = ascAddrs S N ∧
      (∀ i, i < N → (ascAddrs S N)[i]? = some (S + PGSIZE * i)) ∧
      (ascAddrs S N).Pairwise (· < ·) ∧
      (reportsOf (walkPages walk S N)).length = N := by
  intro fuel walk c s1 s2 v1 v2 S E N h1 h2 hS hE hacc hle hne hN hf
  subst hN
  subst hS
  subst hE
  refine ⟨?_, lookupsOf_walkPages walk _ _, ascAddrs_get _ _,
    ascAddrs_pairwise _ _, reportsOf_walkPages walk _ _⟩
  rw [sm_range fuel walk c s1 s2 v1 v2 h1 h2 hacc,
    smLoop_count walk (ROUNDUP32 (v2 % U32)) (roundup32_lt _) hne
      (roundup32_aligned _) _ _ (ROUNDDOWN (v1 % U32))
      (pages_decompose _ _ (rounddown_aligned _) (roundup32_aligned _) hle)
      (by omega)]

/-- C4, amended claim witness: the range from 0 to 0x2000 spans three
pages, and the run with fuel 5 performs the three-page walk with one
lookup and one report line per page, in ascending order. -/
theorem range_walk_per_page_amended_witness :
    mon_showmappings 5 walkNone ["showmappings", "0", "2000"]
        = SmOut.done
            (Ev.line (Line.roundup (0x2000 % U32) 0x2000) ::
              Ev.line (Line.startend 0 0x2000) :: walkPages walkNone 0 3) 0 ∧
    lookupsOf (walkPages walkNone 0 3) = ascAddrs 0 3 ∧
    (reportsOf (walkPages walkNone 0 3)).length = 3 := by
  have h := range_walk_per_page_amended 5 walkNone "showmappings" "0" "2000"
    0x0 0x2000 0 0x2000 3 rfl rfl (by decide) (by decide) (by decide)
    (by decide) (by decide) (by decide) (by omega)
  exact ⟨h.1, h.2.1, h.2.2.2.2⟩

lemma good_nil (walk : Nat → Bool → Option Nat) : GoodTrace walk [] := by
  refine ⟨?_, ?_, ?_, ?_, ?_⟩ <;> intros <;> simp_all

lemma good_cons_line (walk : Nat → Bool → Option Nat) (l : Line)
    (hl : isReport l = false) (t : List Ev) (h : GoodTrace walk t) :
    GoodTrace walk (Ev.line l :: t) := by
  obtain ⟨g1, g2, g3, g4, g5⟩ := h
  refine ⟨?_, ?_, ?_, ?_, ?_⟩
  · intro a c hm
    rcases List.mem_cons.mp hm with he | ht
    · simp at he
    · exact g1 a c ht
  · intro a hm
    rcases List.mem_cons.mp hm with he | ht
    · injection he with hll
      rw [← hll] at hl
      simp [isReport] at hl
    · exact g2 a ht
  · intro a pa s hm
    rcases List.mem_cons.mp hm with he | ht
    · injection he with hll
      rw [← hll] at hl
      simp [isReport] at hl
    · exact g3 a pa s ht
  · intro a c hm hab
    rcases List.mem_cons.mp hm with he | ht
    · simp at he
    · exact List.mem_cons_of_mem _ (g4 a c ht hab)
  · intro a c hm hab
    rcases List.mem_cons.mp hm with he | ht
    · simp at he
    · obtain ⟨pte, hw, hmm⟩ := g5 a c ht hab
      exact ⟨pte, hw, List.mem_cons_of_mem _ hmm⟩

lemma good_line_only (walk : Nat → Bool → Option Nat) (l : Line)
    (hl : isReport l = false) : GoodTrace walk [Ev.line l] :=
  good_cons_line walk l hl [] (good_nil walk)

lemma good_append (walk : Nat → Bool → Option Nat) (t1 t2 : List Ev)
    (h1 : GoodTrace walk t1) (h2 : GoodTrace walk t2) :
    GoodTrace walk (t1 ++ t2) := by
  obtain ⟨a1, b1, c1, d1, e1⟩ := h1
  obtain ⟨a2, b2, c2, d2, e2⟩ := h2
  refine ⟨?_, ?_, ?_, ?_, ?_⟩
  · intro a c hm
    rcases List.mem_append.mp hm with h | h
    · exact a1 a c h
    · exact a2 a c h
  · intro a hm
    rcases List.mem_append.mp hm with h | h
    · exact b1 a h
    · exact b2 a h
  · intro a pa s hm
    rcases List.mem_append.mp hm with h | h
    · exact c1 a pa s h
    · exact c2 a pa s h
  · intro a c hm hab
    rcases List.mem_append.mp hm with h | h
    · exact List.mem_append_left _ (d1 a c h hab)
    · exact List.mem_append_right _ (d2 a c h hab)
  · intro a c hm hab
    rcases List.mem_append.mp hm with h | h
    · obtain ⟨pte, hw, hmm⟩ := e1 a c h hab
      exact ⟨pte, hw, List.mem_append_left _ hmm⟩
    · obtain ⟨pte, hw, hmm⟩ := e2 a c h hab
      exact ⟨pte, hw, List.mem_append_right _ hmm⟩

lemma good_single_notMapped (walk : Nat → Bool → Option Nat) (a : Nat)
    (hab : walkAbsent walk a) :
    GoodTrace walk [Ev.line (Line.notMapped a)] := by
  refine ⟨?_, ?_, ?_, ?_, ?_⟩
  · intro a' c hm
    simp at hm
  · intro a' hm
    simp at hm
    rw [hm]
    exact hab
  · intro a' pa s hm
    simp at hm
  · intro a' c hm
    simp at hm
  · intro a' c hm
    simp at hm

lemma good_single_mapped (walk : Nat → Bool → Option Nat) (a pte : Nat)
    (hw : walk a false = some pte) (hp : pte &&& PTE_P ≠ 0) :
    GoodTrace walk [Ev.line (Line.mapped a (PTE_ADDR pte) (get_perm pte))] := by
  refine ⟨?_, ?_, ?_, ?_, ?_⟩
  · intro a' c hm
    simp at hm
  · intro a' hm
    simp at hm
  · intro a' pa s hm
    simp at hm
    obtain ⟨ha, hpa, hs⟩ := hm
    rw [ha, hpa, hs]
    exact ⟨pte, hw, hp, rfl, rfl⟩
  · intro a' c hm
    simp at hm
  · intro a' c hm
    simp at hm

lemma good_cons_lookup (walk : Nat → Bool → Option Nat) (a : Nat) (t : List Ev)
    (hgood : GoodTrace walk t)
    (hab : walkAbsent walk a → Ev.line (Line.notMapped a) ∈ t)
    (hpres : ¬ walkAbsent walk a → ∃ pte, walk a false = some pte ∧
      Ev.line (Line.mapped a (PTE_ADDR pte) (get_perm pte)) ∈ t) :
    GoodTrace walk (Ev.lookup a false :: t) := by
  obtain ⟨g1, g2, g3, g4, g5⟩ := hgood
  refine ⟨?_, ?_, ?_, ?_, ?_⟩
  · intro a' c hm
    rcases List.mem_cons.mp hm with he | ht
    · injection he with ha hc
    · exact g1 a' c ht
  · intro a' hm
    rcases List.mem_cons.mp hm with he | ht
    · simp at he
    · exact g2 a' ht
  · intro a' pa s hm
    rcases List.mem_cons.mp hm with he | ht
    · simp at he
    · exact g3 a' pa s ht
  · intro a' c hm hab'
    rcases List.mem_cons.mp hm with he | ht
    · injection he with ha hc
      rw [← ha] at hab
      exact List.mem_cons_of_mem _ (hab hab')
    · exact List.mem_cons_of_mem _ (g4 a' c ht hab')
  · intro a' c hm hab'
    rcases List.mem_cons.mp hm with he | ht
    · injection he with ha hc
      rw [← ha] at hpres
      obtain ⟨pte, hw, hmm⟩ := hpres hab'
      exact ⟨pte, hw, List.mem_cons_of_mem _ hmm⟩
    · obtain ⟨pte, hw, hmm⟩ := g5 a' c ht hab'
      exact ⟨pte, hw, List.mem_cons_of_mem _ hmm⟩

lemma good_pageEvents (walk : Nat → Bool → Option Nat) (a : Nat) :
    GoodTrace walk (pageEvents walk a) := by
  unfold pageEvents
  rcases hw : walk a false with _ | pte
  · refine good_cons_lookup walk a _ (good_single_notMapped walk a (Or.inl hw))
      (fun _ => List.mem_singleton.mpr rfl)
      (fun hnab => absurd (Or.inl hw) hnab)
  · show GoodTrace walk (Ev.lookup a false ::
      (if pte &&& PTE_P = 0 then [Ev.line (Line.notMapped a)]
        else [Ev.line (Line.mapped a (PTE_ADDR pte) (get_perm pte))]))
    by_cases hp : pte &&& PTE_P = 0
    · rw [if_pos hp]
      refine good_cons_lookup walk a _
        (good_single_notMapped walk a (Or.inr ⟨pte, hw, hp⟩))
        (fun _ => List.mem_singleton.mpr rfl)
        (fun hnab => absurd (Or.inr ⟨pte, hw, hp⟩) hnab)
    · rw [if_neg hp]
      refine good_cons_lookup walk a _ (good_single_mapped walk a pte hw hp)
        ?_ (fun _ => ⟨pte, hw, List.mem_singleton.mpr rfl⟩)
      intro hab'
      rcases hab' with hn | ⟨pte', hw', hp'⟩
      · rw [hw] at hn
        cases hn
      · rw [hw] at hw'
        injection hw' with he
        rw [← he] at hp'
        exact absurd hp' hp

lemma good_smLoop (walk : Nat → Bool → Option Nat) (E : Nat) :
    ∀ fuel addr evs, smLoop walk E fuel addr = some evs → GoodTrace walk evs := by
  intro fuel
  induction fuel with
  | zero =>
    intro addr evs h
    simp [smLoop] at h
  | succ n ih =>
    intro addr evs h
    rw [smLoop] at h
    by_cases hg : addr ≤ E
    · rw [if_pos hg] at h
      rcases hr : smLoop walk E n ((addr + PGSIZE) % U32) with _ | evs'
      · rw [hr] at h
        simp at h
      · rw [hr] at h
        simp only [Option.some.injEq] at h
        rw [← h]
        exact good_append walk _ _ (good_pageEvents walk addr) (ih _ _ hr)
    · rw [if_neg hg] at h
      simp only [Option.some.injEq] at h
      rw [← h]
      exact good_nil walk

lemma good_mon (fuel : Nat) (walk : Nat → Bool → Option Nat) (argv : List String) :
    GoodTrace walk (smTraceOf (mon_showmappings fuel walk argv)) := by
  rcases h1 : argv[1]? with _ | a1
  · simp only [mon_showmappings, h1, smTraceOf]
    exact good_nil walk
  · by_cases hp1 : (strtolHex a1).2 = ""
    · by_cases hl2 : argv.length = 2
      · have hx : mon_showmappings fuel walk argv
            = SmOut.done (pageEvents walk (ROUNDDOWN ((strtolHex a1).1 % U32))) 0 := by
          simp [mon_showmappings, h1, hp1, hl2]
        rw [hx]
        exact good_pageEvents walk _
      · by_cases hl3 : argv.length = 3
        · rcases h2 : argv[2]? with _ | a2
          · rw [List.getElem?_eq_none_iff] at h2
            omega
          · by_cases hp2 : (strtolHex a2).2 = ""
            · by_cases hcmp :
                ROUNDDOWN ((strtolHex a1).1 % U32) > (strtolHex a2).1 % U32
              · have hx : mon_showmappings fuel walk argv
                    = SmOut.done [Ev.line Line.startAfterEnd] (-E_INVAL) := by
                  simp [mon_showmappings, h1, hp1, hl2, hl3, h2, hp2, hcmp]
                rw [hx]
                exact good_line_only walk Line.startAfterEnd (by simp [isReport])
              · rcases hsm : smLoop walk (ROUNDUP32 ((strtolHex a2).1 % U32)) fuel
                    (ROUNDDOWN ((strtolHex a1).1 % U32)) with _ | evs
                · have hx : mon_showmappings fuel walk argv = SmOut.diverged := by
                    simp [mon_showmappings, h1, hp1, hl2, hl3, h2, hp2, hcmp, hsm]
                  rw [hx]
                  exact good_nil walk
                · have hx : mon_showmappings fuel walk argv
                      = SmOut.done
                          (Ev.line (Line.roundup ((strtolHex a2).1 % U32)
                              (ROUNDUP32 ((strtolHex a2).1 % U32))) ::
                            Ev.line (Line.startend (ROUNDDOWN ((strtolHex a1).1 % U32))
                              (ROUNDUP32 ((strtolHex a2).1 % U32))) :: evs) 0 := by
                    simp [mon_showmappings, h1, hp1, hl2, hl3, h2, hp2, hcmp, hsm]
                  rw [hx]
                  refine good_cons_line walk _ (by simp [isReport]) _
                    (good_cons_line walk _ (by simp [isReport]) _ ?_)
                  exact good_smLoop walk _ fuel _ evs hsm
            · have hx : mon_showmappings fuel walk argv
                  = SmOut.done [Ev.line Line.invalidStart] (-E_INVAL) := by
                simp [mon_showmappings, h1, hp1, hl2, hl3, h2, hp2]
              rw [hx]
              exact good_line_only walk Line.invalidStart (by simp [isReport])
        · have hx : mon_showmappings fuel walk argv
              = SmOut.done [Ev.line Line.usage] (-E_INVAL) := by
            simp [mon_showmappings, h1, hp1, hl2, hl3]
          rw [hx]
          exact good_line_only walk Line.usage (by simp [isReport])
    · have hx : mon_showmappings fuel walk argv
          = SmOut.done [Ev.line Line.invalidStart] (-E_INVAL) := by
        simp [mon_showmappings, h1, hp1]
      rw [hx]
      exact good_line_only walk Line.invalidStart (by simp [isReport])

/-- C8: every per-page lookup of showmappings passes create = false to
the page-table lookup primitive; a page is reported as not mapped
exactly when the lookup returns no entry or the present flag of the
entry is clear; and a mapped report carries the physical address
obtained from the entry with its low attribute bits masked off,
together with the permission summary of that entry. -/
theorem lookup_create_false_and_reports :
    ∀ (fuel : Nat) (walk : Nat → Bool → Option Nat) (argv : List String),
      (∀ a c, Ev.lookup a c ∈ smTraceOf (mon_showmappings fuel walk argv) →
        c = false) ∧
      (∀ a, Ev.line (Line.notMapped a) ∈ smTraceOf (mon_showmappings fuel walk argv) →
        walkAbsent walk a) ∧
      (∀ a pa s,
        Ev.line (Line.mapped a pa s) ∈ smTraceOf (mon_showmappings fuel walk argv) →
        ∃ pte, walk a false = some pte ∧ pte &&& PTE_P ≠ 0 ∧
          pa = PTE_ADDR pte ∧ s = get_perm pte) ∧
      (∀ a c, Ev.lookup a c ∈ smTraceOf (mon_showmappings fuel walk argv) →
        walkAbsent walk a →
        Ev.line (Line.notMapped a) ∈ smTraceOf (mon_showmappings fuel walk argv)) ∧
      (∀ a c, Ev.lookup a c ∈ smTraceOf (mon_showmappings fuel walk argv) →
        ¬ walkAbsent walk a →
        ∃ pte, walk a false = some pte ∧
          Ev.line (Line.mapped a (PTE_ADDR pte) (get_perm pte))
            ∈ smTraceOf (mon_showmappings fuel walk argv)) :=
  fun fuel walk argv => good_mon fuel walk argv

/-- C8, witness: in the single-page run at address 0x1000 over the
empty page table, the page is looked up (with create false) and the
absent lookup yields the not-mapped report line. -/
theorem lookup_create_false_and_reports_witness :
    Ev.line (Line.notMapped 4096)
      ∈ smTraceOf (mon_showmappings 3 walkNone ["showmappings", "1000"]) :=
  (lookup_create_false_and_reports 3 walkNone ["showmappings", "1000"]).2.2.2.1
    4096 false (by decide) (Or.inl rfl)

lemma ebpIter_shift (mem : Nat → Nat) (e0 : Nat) :
    ∀ i, ebpIter mem (mem e0) i = ebpIter mem e0 (i + 1) := by
  intro i
  induction i with
  | zero => rfl
  | succ k ih => rw [ebpIter, ih]; rfl

lemma btLoop_chain (mem : Nat → Nat) (dbg : Nat → Eipdebuginfo) :
    ∀ K e0 fuel, (∀ i, i < K → ebpIter mem e0 i ≠ 0) → ebpIter mem e0 K = 0 →
      K ≤ fuel →
      btLoop mem dbg fuel e0 = some (btFrames mem dbg e0 K, btReads mem e0 K) := by
  intro K
  induction K with
  | zero =>
    intro e0 fuel hnz hz hf
    have he : e0 = 0 := hz
    subst he
    cases fuel with
    | zero => rfl
    | succ n => rw [btLoop, if_pos rfl]; rfl
  | succ k ih =>
    intro e0 fuel hnz hz hf
    have he0 : e0 ≠ 0 := hnz 0 (Nat.succ_pos k)
    cases fuel with
    | zero => omega
    | succ n =>
      rw [btLoop, if_neg he0,
        ih (mem e0) n
          (fun i hi => by rw [ebpIter_shift]; exact hnz (i + 1) (by omega))
          (by rw [ebpIter_shift]; exact hz) (by omega)]
      rfl

lemma btFrames_len (mem : Nat → Nat) (dbg : Nat → Eipdebuginfo) :
    ∀ K e0, (btFrames mem dbg e0 K).length = K := by
  intro K
  induction K with
  | zero => intro e0; rfl
  | succ k ih => intro e0; rw [btFrames, List.length_cons, ih (mem e0)]

lemma btFrames_get (mem : Nat → Nat) (dbg : Nat → Eipdebuginfo) :
    ∀ K e0 i, i < K →
      (btFrames mem dbg e0 K)[i]? = some (mkFrame mem dbg (ebpIter mem e0 i)) := by
  intro K
  induction K with
  | zero => intro e0 i h; omega
  | succ k ih =>
    intro e0 i h
    cases i with
    | zero => rw [btFrames, List.getElem?_cons_zero]; rfl
    | succ j =>
      rw [btFrames]
      simp only [List.getElem?_cons_succ]
      rw [ih (mem e0) j (by omega), ebpIter_shift]

lemma btReads_mem (mem : Nat → Nat) :
    ∀ K e0 r, r ∈ btReads mem e0 K →
      ∃ i j, i < K ∧ j ≤ 6 ∧ r = ebpIter mem e0 i + 4 * j := by
  intro K
  induction K with
  | zero => intro e0 r hr; simp [btReads] at hr
  | succ k ih =>
    intro e0 r hr
    rw [btReads] at hr
    have hbase : ebpIter mem e0 0 = e0 := rfl
    rcases List.mem_append.mp hr with h | h
    · simp at h
      rcases h with h | h | h | h | h | h | h
      · exact ⟨0, 1, Nat.succ_pos k, by omega, by rw [hbase]; omega⟩
      · exact ⟨0, 2, Nat.succ_pos k, by omega, by rw [hbase]; omega⟩
      · exact ⟨0, 3, Nat.succ_pos k, by omega, by rw [hbase]; omega⟩
      · exact ⟨0, 4, Nat.succ_pos k, by omega, by rw [hbase]; omega⟩
      · exact ⟨0, 5, Nat.succ_pos k, by omega, by rw [hbase]; omega⟩
      · exact ⟨0, 6, Nat.succ_pos k, by omega, by rw [hbase]; omega⟩
      · exact ⟨0, 0, Nat.succ_pos k, by omega, by rw [hbase]; omega⟩
    · obtain ⟨i, j, hi, hj, hr'⟩ := ih (mem e0) r h
      rw [ebpIter_shift] at hr'
      exact ⟨i + 1, j, by omega, hj, hr'⟩

lemma usub32_of_le (a b : Nat) (hba : b ≤ a) (ha : a < U32) :
    usub32 a b = a - b := by
  unfold usub32
  rw [U32_eq] at *
  omega

/-- C9: for every frame-pointer chain of depth K ending in a zero
terminator, backtrace emits exactly K frame reports, each holding the
frame pointer, the return address read at word offset 1, the five
argument words read at word offsets 2 through 6, and the resolved
debug info with a displayed offset equal (in 32-bit arithmetic, hence
as plain subtraction whenever the function start does not exceed the
return address) to the return address minus the enclosing function
start; every memory read is an offset of at most six words from one of
the K nonzero frame pointers, so the zero terminator is never
dereferenced. -/
theorem backtrace_chain_frames :
    ∀ (mem : Nat → Nat) (dbg : Nat → Eipdebuginfo) (e0 K fuel : Nat),
      (∀ i, i < K → ebpIter mem e0 i ≠ 0) → ebpIter mem e0 K = 0 → K ≤ fuel →
      ∃ frames reads,
        mon_backtrace fuel mem dbg e0 = some (frames, reads) ∧
        frames.length = K ∧
        (∀ i, i < K →
          frames[i]? = some
            { ebp := ebpIter mem e0 i
              eip := mem (ebpIter mem e0 i + 4)
              args := [mem (ebpIter mem e0 i + 8), mem (ebpIter mem e0 i + 12),
                mem (ebpIter mem e0 i + 16), mem (ebpIter mem e0 i + 20),
                mem (ebpIter mem e0 i + 24)]
              info := dbg (mem (ebpIter mem e0 i + 4))
              offset := usub32 (mem (ebpIter mem e0 i + 4))
                (dbg (mem (ebpIter mem e0 i + 4))).eip_fn_addr }) ∧
        (∀ r, r ∈ reads → ∃ i j, i < K ∧ j ≤ 6 ∧ r = ebpIter mem e0 i + 4 * j) ∧
        (∀ a b : Nat, b ≤ a → a < U32 → usub32 a b = a - b) := by
  intro mem dbg e0 K fuel hnz hz hf
  refine ⟨btFrames mem dbg e0 K, btReads mem e0 K,
    btLoop_chain mem dbg K e0 fuel hnz hz hf, btFrames_len mem dbg K e0, ?_,
    btReads_mem mem K e0, usub32_of_le⟩
  intro i hi
  rw [btFrames_get mem dbg K e0 i hi]
  rfl

/-- C9, witness: on the concrete two-frame chain 100, 200, 0 the
unwinder emits exactly two frame reports. -/
theorem backtrace_chain_frames_witness :
    btLen (mon_backtrace 5 memChain dbgChain 100) = some 2 := by
  obtain ⟨frames, reads, heq, hlen, -⟩ :=
    backtrace_chain_frames memChain dbgChain 100 2 5 (by decide) (by decide)
      (by omega)
  rw [btLen, heq, Option.map_some', hlen]

lemma splitIn_len_pos : ∀ (buf acc : List Char), 1 ≤ (splitIn buf acc).length := by
  intro buf
  induction buf with
  | nil => intro acc; simp [splitIn]
  | cons c cs ih =>
    intro acc
    rw [splitIn]
    by_cases h : isWS c
    · simp [h]
    · simp only [h, if_false]
      exact ih (c :: acc)

lemma tok_spec : ∀ (buf : List Char),
    (∀ argc, argc ≤ 15 →
      tokSkip buf argc
        = if argc + (splitSkip buf).length ≤ 15 then some (splitSkip buf)
          else none) ∧
    (∀ argc acc, argc ≤ 14 →
      tokIn buf argc acc
        = if argc + (splitIn buf acc).length ≤ 15 then some (splitIn buf acc)
          else none) := by
  intro buf
  induction buf with
  | nil =>
    constructor
    · intro argc h
      rw [tokSkip, splitSkip]
      simp only [List.length_nil, Nat.add_zero]
      rw [if_pos h]
    · intro argc acc h
      rw [tokIn, splitIn]
      rw [if_pos (by simp; omega)]
  | cons c cs ih =>
    obtain ⟨ihS, ihI⟩ := ih
    constructor
    · intro argc h
      by_cases hws : isWS c
      · rw [tokSkip, splitSkip]
        simp only [hws, if_true]
        exact ihS argc h
      · rw [tokSkip, splitSkip]
        simp only [hws, Bool.false_eq_true, if_false]
        by_cases ha : argc = MAXARGS - 1
        · have h15 : argc = 15 := by simp [MAXARGS] at ha; omega
          rw [if_pos ha, if_neg (show ¬(argc + (splitIn cs [c]).length ≤ 15) by
            have := splitIn_len_pos cs [c]; omega)]
        · have h14 : argc ≤ 14 := by simp [MAXARGS] at ha; omega
          rw [if_neg ha]
          exact ihI argc [c] h14
    · intro argc acc h
      by_cases hws : isWS c
      · rw [tokIn, splitIn]
        simp only [hws, if_true]
        rw [ihS (argc + 1) (by omega)]
        by_cases hc : argc + 1 + (splitSkip cs).length ≤ 15
        · rw [if_pos hc, if_pos (by simp; omega)]
        · rw [if_neg hc, if_neg (by simp; omega)]
      · rw [tokIn, splitIn]
        simp only [hws, Bool.false_eq_true, if_false]
        exact ihI argc (c :: acc) h

lemma tokenize_spec (buf : List Char) :
    tokenize buf
      = if (tokensOf buf).length ≤ 15 then some (tokensOf buf) else none := by
  unfold tokenize tokensOf
  rw [(tok_spec buf).1 0 (by omega)]
  simp only [Nat.zero_add, List.length_map]
  by_cases hc : (splitSkip buf).length ≤ 15
  · rw [if_pos hc, if_pos hc]
    rfl
  · rw [if_neg hc, if_neg hc]
    rfl

/-- C10: the dispatcher stores at most 15 tokens per input line, one
slot of the MAXARGS-sized argv array being reserved for the null
terminator: a line of at most 15 whitespace-separated tokens is
tokenized in full, while a line beginning a 16th token is discarded
with an error message stating the maximum as MAXARGS = 16, one more
than the 15 tokens actually accepted, and the dispatcher returns 0 so
the console loop keeps running. -/
theorem dispatcher_maxargs :
    ∀ (fuel : Nat) (walk : Nat → Bool → Option Nat) (mem : Nat → Nat)
      (dbg : Nat → Eipdebuginfo) (ebp0 : Nat) (buf : List Char),
      ((tokensOf buf).length ≤ 15 → tokenize buf = some (tokensOf buf)) ∧
      (16 ≤ (tokensOf buf).length →
        tokenize buf = none ∧
        runcmd fuel walk mem dbg ebp0 buf = RunOut.tooMany MAXARGS ∧
        retOf (RunOut.tooMany MAXARGS) = some 0 ∧
        monitorStops 0 = false) ∧
      MAXARGS = 16 ∧ MAXARGS - 1 = 15 := by
  intro fuel walk mem dbg ebp0 buf
  refine ⟨?_, ?_, rfl, rfl⟩
  · intro h
    rw [tokenize_spec, if_pos h]
  · intro h
    have ht : tokenize buf = none := by
      rw [tokenize_spec, if_neg (by omega)]
    refine ⟨ht, ?_, rfl, rfl⟩
    rw [runcmd, ht]

/-- C10, witness: a line of sixteen tokens is rejected and the
dispatcher returns the non-negative tooMany outcome showing the
maximum 16. -/
theorem dispatcher_maxargs_witness :
    tokenize ("a b c d e f g h i j k l m n o p".toList) = none ∧
    runcmd 1 walkNone memZero dbgZero 0 ("a b c d e f g h i j k l m n o p".toList)
        = RunOut.tooMany MAXARGS := by
  have h := (dispatcher_maxargs 1 walkNone memZero dbgZero 0
    ("a b c d e f g h i j k l m n o p".toList)).2.1 (by decide)
  exact ⟨h.1, h.2.1⟩

end KernMonitor
